import Mathlib

/-
Verification development for the Ecuador OSINT dashboard
(`config.py`, `analysis.py`, `fetchers.py`, `app.py` / `ecuador_osint_v2.py`).

Python strings are modelled as `List Char` (`Str`).  Python's `x in s`
substring test is modelled by `containsSub`, proved equivalent to
`List.IsInfix`.  `str.lower()` / `str.title()` are modelled for the
character repertoire actually used by the repository (ASCII plus the
Spanish accented letters appearing in the configuration tables).
Wall-clock timestamps are modelled as natural numbers (minutes since the
`datetime.min` origin), so `datetime.min` is `0`; this keeps the total
order used by the cutoff comparison and by the final sort.
-/

abbrev Str := List Char

/-- Python `str.lower` restricted to ASCII plus the Spanish uppercase
letters used in this repository's data. -/
def lowerChar (c : Char) : Char :=
  if 'A' ≤ c ∧ c ≤ 'Z' then Char.ofNat (c.toNat + 32)
  else if c = 'Á' then 'á'
  else if c = 'É' then 'é'
  else if c = 'Í' then 'í'
  else if c = 'Ó' then 'ó'
  else if c = 'Ú' then 'ú'
  else if c = 'Ñ' then 'ñ'
  else if c = 'Ü' then 'ü'
  else c

/-- Python `s.lower()` on the modelled repertoire. -/
def lowerStr (t : Str) : Str := t.map lowerChar

/-- Python `n in h` (substring containment). -/
def containsSub (n : Str) : Str → Bool
  | [] => n.isEmpty
  | c :: rest => n.isPrefixOf (c :: rest) || containsSub n rest

theorem containsSub_iff (n h : Str) : containsSub n h = true ↔ n <:+: h := by
  induction h with
  | nil =>
    constructor
    · intro hc
      cases n with
      | nil => exact List.nil_infix
      | cons a l => simp [containsSub] at hc
    · intro hx
      cases n with
      | nil => rfl
      | cons a l =>
        rcases hx with ⟨s, t, hst⟩
        exact absurd hst (by simp)
  | cons c rest ih =>
    simp only [containsSub, Bool.or_eq_true, List.isPrefixOf_iff_prefix, ih]
    constructor
    · rintro (hp | hi)
      · exact hp.isInfix
      · exact hi.trans (List.suffix_cons c rest).isInfix
    · rintro ⟨s, t, hst⟩
      cases s with
      | nil =>
        left
        exact ⟨t, by simpa using hst⟩
      | cons a s' =>
        right
        have hst' : a :: (s' ++ (n ++ t)) = c :: rest := by
          simpa [List.append_assoc] using hst
        injection hst' with h1 h2
        exact ⟨s', t, by rw [List.append_assoc]; exact h2⟩

/-- config.py `HIGH_SEVERITY` (a Python set; modelled as a list, only
membership is ever used). -/
def HIGH_SEVERITY : List Str :=
  ["masacre".data, "asesinato".data, "homicidio".data, "sicario".data,
   "bomba".data, "ataque".data, "muerte".data, "muerto".data,
   "víctima".data, "secuestro".data, "desaparecido".data, "tortura".data,
   "ejecución".data, "violación".data, "matanza".data]

/-- config.py `MEDIUM_SEVERITY`. -/
def MEDIUM_SEVERITY : List Str :=
  ["violencia".data, "crimen".data, "narcotráfico".data, "extorsión".data,
   "amenaza".data, "detenido".data, "arrestado".data, "operación".data,
   "banda".data, "pandilla".data, "protesta".data, "disturbio".data,
   "represión".data, "desplazado".data]

/-- The local `text = (title + " " + summary).lower()` used by
`compute_severity` / `tag_themes` / `keyword_match`. -/
def sevText (title summary : Str) : Str := lowerStr (title ++ " ".data ++ summary)

/-- analysis.py `compute_severity`. -/
def computeSeverity (title summary : Str) : Str :=
  if HIGH_SEVERITY.any (fun w => containsSub w (sevText title summary)) then "🔴 High".data
  else if MEDIUM_SEVERITY.any (fun w => containsSub w (sevText title summary)) then "🟡 Medium".data
  else "🟢 Low".data

/-- C2: `compute_severity` lowercases the concatenation of title and
summary; it returns High exactly when some High-severity keyword is a
substring (High wins outright over Medium), Medium exactly when no High
keyword but some Medium keyword occurs, and Low otherwise; in particular
`compute_severity("", "")` is Low. -/
theorem computeSeverity_spec (title summary : Str) :
    (computeSeverity title summary = "🔴 High".data ↔
      ∃ w ∈ HIGH_SEVERITY, w <:+: sevText title summary) ∧
    (computeSeverity title summary = "🟡 Medium".data ↔
      ((∀ w ∈ HIGH_SEVERITY, ¬ w <:+: sevText title summary) ∧
        ∃ w ∈ MEDIUM_SEVERITY, w <:+: sevText title summary)) ∧
    (computeSeverity title summary = "🟢 Low".data ↔
      ((∀ w ∈ HIGH_SEVERITY, ¬ w <:+: sevText title summary) ∧
        ∀ w ∈ MEDIUM_SEVERITY, ¬ w <:+: sevText title summary)) ∧
    computeSeverity [] [] = "🟢 Low".data := by
  have hany : ∀ L : List Str,
      (L.any (fun w => containsSub w (sevText title summary)) = true) ↔
        ∃ w ∈ L, w <:+: sevText title summary := by
    intro L
    simp only [List.any_eq_true, containsSub_iff]
  have hnany : ∀ L : List Str,
      (¬ L.any (fun w => containsSub w (sevText title summary)) = true) ↔
        ∀ w ∈ L, ¬ w <:+: sevText title summary := by
    intro L
    rw [hany L]
    push_neg
    exact Iff.rfl
  by_cases hH : HIGH_SEVERITY.any (fun w => containsSub w (sevText title summary)) = true
  · have hcs : computeSeverity title summary = "🔴 High".data := by
      unfold computeSeverity
      rw [if_pos hH]
    rw [hcs]
    obtain ⟨w, hw, hws⟩ := (hany _).mp hH
    refine ⟨by simp; exact ⟨w, hw, hws⟩, ?_, ?_, by decide⟩
    · constructor
      · intro hfalse; exact absurd hfalse (by decide)
      · rintro ⟨hno, -⟩; exact absurd hws (hno w hw)
    · constructor
      · intro hfalse; exact absurd hfalse (by decide)
      · rintro ⟨hno, -⟩; exact absurd hws (hno w hw)
  · have hHno := (hnany _).mp hH
    by_cases hM : MEDIUM_SEVERITY.any (fun w => containsSub w (sevText title summary)) = true
    · have hcs : computeSeverity title summary = "🟡 Medium".data := by
        unfold computeSeverity
        rw [if_neg hH, if_pos hM]
      rw [hcs]
      obtain ⟨w, hw, hws⟩ := (hany _).mp hM
      refine ⟨?_, ?_, ?_, by decide⟩
      · constructor
        · intro hfalse; exact absurd hfalse (by decide)
        · rintro ⟨w', hw', hws'⟩; exact absurd hws' (hHno w' hw')
      · simp only [iff_true_intro rfl, true_iff]
        exact ⟨hHno, w, hw, hws⟩
      · constructor
        · intro hfalse; exact absurd hfalse (by decide)
        · rintro ⟨-, hno⟩; exact absurd hws (hno w hw)
    · have hMno := (hnany _).mp hM
      have hcs : computeSeverity title summary = "🟢 Low".data := by
        unfold computeSeverity
        rw [if_neg hH, if_neg hM]
      rw [hcs]
      refine ⟨?_, ?_, ?_, by decide⟩
      · constructor
        · intro hfalse; exact absurd hfalse (by decide)
        · rintro ⟨w', hw', hws'⟩; exact absurd hws' (hHno w' hw')
      · constructor
        · intro hfalse; exact absurd hfalse (by decide)
        · rintro ⟨-, w', hw', hws'⟩; exact absurd hws' (hMno w' hw')
      · simp only [iff_true_intro rfl, true_iff]
        exact ⟨hHno, hMno⟩

/-- The normalized article row built by the fetchers (`_fetch_single_rss`
/ `fetch_newsapi`).  `pubDt` is the `_pub_dt` sort key; `0` models the
`datetime.min` sentinel. -/
structure Article where
  Title : Str
  Source : Str
  Link : Str
  Published : Str
  Summary : Str
  pubDt : Nat
deriving DecidableEq, Repr

/-- analysis.py `keyword_match` (takes a row with `Title` / `Summary`). -/
def keywordMatch (row : Article) (kws : List Str) : Bool :=
  let haystack := lowerStr (row.Title ++ " ".data ++ row.Summary)
  kws.isEmpty || kws.any (fun kw => containsSub kw haystack)

/-- `a` is a case-insensitive substring of `b` (both sides case-folded). -/
def ciSub (a b : Str) : Prop := lowerStr a <:+: lowerStr b

/-- A concrete article used in counterexamples. -/
def rowViolencia : Article :=
  { Title := "violencia".data, Source := [], Link := [], Published := [],
    Summary := [], pubDt := 0 }

/-- C4 counterexample: the claim "keyword_match returns true iff the list
is empty or some keyword is a case-insensitive substring of title+summary"
fails for an uppercase keyword: `"VIOLENCIA"` is a case-insensitive
substring of the article text `"violencia"`, yet `keyword_match` returns
false, because the code lowercases only the haystack, not the keyword. -/
theorem keywordMatch_ci_cex :
    keywordMatch rowViolencia ["VIOLENCIA".data] = false ∧
    ciSub "VIOLENCIA".data (rowViolencia.Title ++ " ".data ++ rowViolencia.Summary) := by
  constructor
  · decide
  · show lowerStr "VIOLENCIA".data <:+: lowerStr ("violencia".data ++ " ".data ++ [])
    decide

/-- C4 (amended): `keyword_match` returns true iff the keyword list is
empty (vacuous pass) or some keyword occurs verbatim as a substring of
the lowercased `Title + " " + Summary` (so matching is insensitive to the
article's case, but keywords must already be lowercase to match); in
particular `keyword_match(article, [])` is true for every article. -/
theorem keywordMatch_spec (row : Article) (kws : List Str) :
    (keywordMatch row kws = true ↔
      (kws = [] ∨ ∃ kw ∈ kws, kw <:+: lowerStr (row.Title ++ " ".data ++ row.Summary))) ∧
    keywordMatch row [] = true := by
  constructor
  · unfold keywordMatch
    simp only [Bool.or_eq_true, List.any_eq_true, containsSub_iff, List.isEmpty_iff]
  · rfl

/-- analysis.py `highlight`, one keyword pass: wrap every non-overlapping
(leftmost-first) case-insensitive occurrence of the `re.escape`d literal
keyword in `**...**`.  The scan after a match resumes past the matched
characters, exactly like `re.sub`. -/
def highlightGoF (kw : Str) : Nat → Str → Str
  | _, [] => []
  | 0, rest => rest
  | fuel + 1, c :: rest =>
    if 0 < kw.length ∧ (lowerStr kw).isPrefixOf (lowerStr (c :: rest)) then
      "**".data ++ (c :: rest).take kw.length ++ "**".data ++
        highlightGoF kw fuel ((c :: rest).drop kw.length)
    else
      c :: highlightGoF kw fuel rest

/-- The non-empty-keyword scan, started with enough fuel for the whole
text (each step consumes at least one character, so the fuel-exhausted
branch of `highlightGoF` is unreachable). -/
def highlightGo (kw text : Str) : Str := highlightGoF kw text.length text

/-- analysis.py `highlight`, empty-keyword pass: `re.sub` with an empty
(escaped) pattern matches the empty string before every character and at
the end, inserting `**` + `**` at each position. -/
def highlightEmpty : Str → Str
  | [] => "****".data
  | c :: rest => "****".data ++ c :: highlightEmpty rest

/-- One `re.sub(f"({re.escape(kw)})", r"**\1**", text, flags=IGNORECASE)`
step of analysis.py `highlight`. -/
def highlightOne (text kw : Str) : Str :=
  if kw = [] then highlightEmpty text else highlightGo kw text

/-- analysis.py `highlight`: folds `re.sub` over the keywords in order. -/
def highlight (text : Str) (kws : List Str) : Str :=
  kws.foldl highlightOne text

/-- C9: `highlight` is total even for keywords containing pattern
metacharacters (they are escaped, hence literal): on
`highlight("test (abc) end", ["(abc)"])` the parenthesised keyword is
wrapped in emphasis markers, and `highlight(text, [])` is the identity. -/
theorem highlight_spec :
    (∀ text : Str, highlight text [] = text) ∧
    highlight "test (abc) end".data ["(abc)".data] = "test **(abc)** end".data := by
  constructor
  · intro text; rfl
  · decide

/-- Uppercase counterpart of `lowerChar` (ASCII plus the Spanish accented
letters used in the gazetteer). -/
def upperChar (c : Char) : Char :=
  if 'a' ≤ c ∧ c ≤ 'z' then Char.ofNat (c.toNat - 32)
  else if c = 'á' then 'Á'
  else if c = 'é' then 'É'
  else if c = 'í' then 'Í'
  else if c = 'ó' then 'Ó'
  else if c = 'ú' then 'Ú'
  else if c = 'ñ' then 'Ñ'
  else if c = 'ü' then 'Ü'
  else c

/-- Whether a character is cased (letter), on the modelled repertoire. -/
def isCased (c : Char) : Bool :=
  ('a' ≤ c ∧ c ≤ 'z') || ('A' ≤ c ∧ c ≤ 'Z') ||
    c ∈ ['á', 'é', 'í', 'ó', 'ú', 'ñ', 'ü', 'Á', 'É', 'Í', 'Ó', 'Ú', 'Ñ', 'Ü']

/-- Python `str.title`: the first cased character of every run is
uppercased, subsequent cased characters are lowercased. -/
def strTitleGo : Bool → Str → Str
  | _, [] => []
  | prevCased, c :: rest =>
    (if isCased c then (if prevCased then lowerChar c else upperChar c) else c) ::
      strTitleGo (isCased c) rest

/-- Python `str.title()`. -/
def strTitle (t : Str) : Str := strTitleGo false t

/-- config.py `LOCATION_COORDS` (a Python dict; insertion order is the
iteration order). -/
def LOCATION_COORDS : List (Str × ℚ × ℚ) :=
  [("guayaquil".data, -2.1894, -79.8891),
   ("quito".data, -0.1807, -78.4678),
   ("esmeraldas".data, 0.9592, -79.6516),
   ("manta".data, -0.9677, -80.7089),
   ("cuenca".data, -2.9001, -79.0059),
   ("portoviejo".data, -1.0546, -80.4545),
   ("machala".data, -3.2581, -79.9554),
   ("santo domingo".data, -0.2526, -79.1719),
   ("loja".data, -3.9931, -79.2042),
   ("ambato".data, -1.2543, -78.6228),
   ("posorja".data, -2.6833, -80.2333),
   ("tumaco".data, 1.8002, -78.7772),
   ("cali".data, 3.4516, -76.5320),
   ("bogotá".data, 4.7110, -74.0721),
   ("colombia".data, 4.5709, -74.2973),
   ("perú".data, -9.1900, -75.0152)]

/-- analysis.py `detect_locations`. -/
def detectLocations (text : Str) : List (Str × ℚ × ℚ) :=
  let tl := lowerStr text
  LOCATION_COORDS.filterMap (fun kv =>
    if containsSub kv.1 tl then some (strTitle kv.1, kv.2.1, kv.2.2) else none)

/-- C8: `detect_locations` round-trips every gazetteer key: for each
configured place name P, `detect_locations(P)` is exactly one tuple whose
name is P title-cased and whose coordinates are the configured ones. -/
theorem detectLocations_roundtrip (kv : Str × ℚ × ℚ) (hkv : kv ∈ LOCATION_COORDS) :
    detectLocations kv.1 = [(strTitle kv.1, kv.2.1, kv.2.2)] := by
  fin_cases hkv <;> rfl

/-- C8 witness: the round-trip at the first gazetteer entry. -/
theorem detectLocations_roundtrip_witness :
    detectLocations "guayaquil".data =
      [(strTitle "guayaquil".data, -2.1894, -79.8891)] :=
  detectLocations_roundtrip ("guayaquil".data, -2.1894, -79.8891)
    (by unfold LOCATION_COORDS; exact List.mem_cons_self _ _)

/-- config.py `KEYWORD_THEMES` (dict in insertion order). -/
def KEYWORD_THEMES : List (Str × List Str) :=
  [("Security & Crime".data,
    ["narcotráfico".data, "cocaína".data, "homicidio".data, "violencia".data,
     "asesinato".data, "sicario".data, "masacre".data, "crimen".data,
     "Los Choneros".data, "Lobos".data, "Fito".data, "extorsión".data,
     "banda".data, "secuestro".data, "prison".data, "cárcel".data,
     "pandilla".data]),
   ("Political".data,
    ["Noboa".data, "Correa".data, "gobierno".data, "presidente".data,
     "asamblea".data, "elecciones".data, "política".data, "ministro".data,
     "estado de excepción".data, "decreto".data, "congreso".data,
     "correísmo".data]),
   ("Humanitarian".data,
    ["desplazado".data, "refugiado".data, "derechos humanos".data,
     "pobreza".data, "migración".data, "ACNUR".data, "CICR".data,
     "Cruz Roja".data, "comunidad".data, "indígena".data, "víctima".data,
     "protección".data, "humanitario".data]),
   ("Economic".data,
    ["economía".data, "petróleo".data, "exportación".data, "puerto".data,
     "Guayaquil".data, "Posorja".data, "dolarización".data, "FMI".data,
     "deuda".data, "inversión".data])]

/-- analysis.py `tag_themes`. -/
def tagThemes (title summary : Str) : List Str :=
  KEYWORD_THEMES.filterMap (fun p =>
    if p.2.any (fun kw => containsSub (lowerStr kw) (sevText title summary)) then some p.1
    else none)

/-- Scan for the next `'>'`; `some rest` is the text after it.  Part of
the model of the regex `<[^>]+>` used in `_fetch_single_rss`. -/
def skipToClose : Str → Option Str
  | [] => none
  | c :: r => if c = '>' then some r else skipToClose r

/-- Match of `[^>]+>` starting right after a `'<'`: at least one
non-`'>'` character followed by `'>'`; returns the text after the
closing `'>'`. -/
def findClose : Str → Option Str
  | [] => none
  | c :: r => if c = '>' then none else skipToClose r

theorem skipToClose_length {l l' : Str} (h : skipToClose l = some l') :
    l'.length < l.length := by
  induction l with
  | nil => simp [skipToClose] at h
  | cons c r ih =>
    rw [skipToClose] at h
    split at h
    · cases h
      simp
    · have := ih h
      simp only [List.length_cons]
      omega

theorem findClose_length {l l' : Str} (h : findClose l = some l') :
    l'.length < l.length := by
  cases l with
  | nil => simp [findClose] at h
  | cons c r =>
    rw [findClose] at h
    split at h
    · cases h
    · have := skipToClose_length h
      simp only [List.length_cons]
      omega

theorem skipToClose_sub {l l' : Str} (h : skipToClose l = some l') : List.Sublist l' l := by
  induction l with
  | nil => simp [skipToClose] at h
  | cons c r ih =>
    rw [skipToClose] at h
    split at h
    · cases h
      exact (List.Sublist.refl _).cons c
    · exact (ih h).cons c

theorem findClose_sub {l l' : Str} (h : findClose l = some l') : List.Sublist l' l := by
  cases l with
  | nil => simp [findClose] at h
  | cons c r =>
    rw [findClose] at h
    split at h
    · cases h
    · exact (skipToClose_sub h).cons c

theorem skipToClose_none {l : Str} (h : skipToClose l = none) : '>' ∉ l := by
  induction l with
  | nil => simp
  | cons c r ih =>
    rw [skipToClose] at h
    split at h
    · cases h
    · rename_i hc
      have := ih h
      simp only [List.mem_cons]
      rintro (rfl | hm)
      · exact hc rfl
      · exact this hm

theorem findClose_none_cases {c : Char} {r : Str} (h : findClose (c :: r) = none) :
    c = '>' ∨ '>' ∉ (c :: r) := by
  rw [findClose] at h
  split at h
  · left; assumption
  · right
    rename_i hc
    have := skipToClose_none h
    simp only [List.mem_cons]
    rintro (rfl | hm)
    · exact hc rfl
    · exact this hm

/-- fetchers.py `re.sub(r"<[^>]+>", "", s)`: remove every leftmost,
non-overlapping match of "`'<'`, one or more non-`'>'` characters,
`'>'`"; a `'<'` with no such close is kept and scanning resumes at the
next character, exactly like the regex engine. -/
def stripTags : Str → Str
  | [] => []
  | c :: r =>
    if c = '<' then
      match hfc : findClose r with
      | some r' => stripTags r'
      | none => '<' :: stripTags r
    else c :: stripTags r
termination_by l => l.length
decreasing_by
  · have := findClose_length hfc
    simp only [List.length_cons]
    omega
  · simp
  · simp

theorem stripTags_sublist (l : Str) : List.Sublist (stripTags l) l := by
  generalize hn : l.length = n
  induction n using Nat.strong_induction_on generalizing l with
  | _ n ih =>
    cases l with
    | nil => rw [stripTags.eq_def]
    | cons c r =>
      rw [stripTags.eq_def]
      simp only
      split
      · rename_i hc
        split
        · rename_i r' hfc
          have hsub : List.Sublist r' r := findClose_sub hfc
          have hlen : r'.length < n := by
            have := findClose_length hfc
            simp only [List.length_cons] at hn
            omega
          exact ((ih r'.length hlen r' rfl).trans hsub).cons c
        · rename_i hfc
          have ihr := ih r.length (by simp only [List.length_cons] at hn; omega) r rfl
          subst hc
          exact ihr.cons₂ '<'
      · rename_i hc
        have ihr := ih r.length (by simp only [List.length_cons] at hn; omega) r rfl
        exact ihr.cons₂ c

/-- `'>'` occurs in the text. -/
def tagClose : Str → Bool
  | [] => false
  | c :: r => if c = '>' then true else tagClose r

/-- After a `'<'`: a nonempty run of non-`'>'` characters then `'>'`. -/
def tagFrom : Str → Bool
  | [] => false
  | c :: r => if c = '>' then false else tagClose r

/-- The text contains a match of the tag regex `<[^>]+>`. -/
def hasTagB : Str → Bool
  | [] => false
  | c :: r => (decide (c = '<') && tagFrom r) || hasTagB r

theorem tagClose_eq_true_iff (l : Str) : tagClose l = true ↔ '>' ∈ l := by
  induction l with
  | nil => simp [tagClose]
  | cons c r ih =>
    rw [tagClose]
    split
    · rename_i hc
      subst hc
      simp
    · rename_i hc
      simp only [List.mem_cons, ih]
      constructor
      · exact Or.inr
      · rintro (rfl | hm)
        · exact absurd rfl hc
        · exact hm

theorem tagFrom_eq_false_of_not_mem {l : Str} (h : '>' ∉ l) : tagFrom l = false := by
  cases l with
  | nil => rfl
  | cons c r =>
    rw [tagFrom]
    split
    · rfl
    · rw [← Bool.not_eq_true, tagClose_eq_true_iff]
      intro hm
      exact h (List.mem_cons_of_mem c hm)

theorem stripTags_no_tag (l : Str) : hasTagB (stripTags l) = false := by
  generalize hn : l.length = n
  induction n using Nat.strong_induction_on generalizing l with
  | _ n ih =>
    cases l with
    | nil => rw [stripTags.eq_def]; rfl
    | cons c r =>
      have hr : r.length < n := by simp only [List.length_cons] at hn; omega
      rw [stripTags.eq_def]
      simp only
      split
      · rename_i hc
        split
        · rename_i r' hfc
          have hlen : r'.length < n := by
            have := findClose_length hfc
            simp only [List.length_cons] at hn
            omega
          exact ih r'.length hlen r' rfl
        · rename_i hfc
          subst hc
          rw [hasTagB]
          have hrest := ih r.length hr r rfl
          have hfrom : tagFrom (stripTags r) = false := by
            cases r with
            | nil => rw [stripTags.eq_def]; rfl
            | cons c₂ r₂ =>
              rcases findClose_none_cases hfc with hgt | hnm
              · subst hgt
                rw [stripTags.eq_def]
                simp only [if_neg (by decide : ¬ ('>' : Char) = '<')]
                rw [tagFrom]
                simp
              · have hsub := stripTags_sublist (c₂ :: r₂)
                exact tagFrom_eq_false_of_not_mem (fun hm => hnm (hsub.subset hm))
          rw [hfrom, hrest]
          simp
      · rename_i hc
        rw [hasTagB]
        have hrest := ih r.length hr r rfl
        rw [hrest, decide_eq_false hc]
        simp

theorem tagFrom_take {l : Str} {n : Nat} (h : tagFrom (l.take n) = true) :
    tagFrom l = true := by
  cases l with
  | nil => rw [List.take_nil] at h; exact h
  | cons c r =>
    cases n with
    | zero => simp [tagFrom] at h
    | succ m =>
      rw [List.take_succ_cons] at h
      rw [tagFrom] at h ⊢
      split at h
      · cases h
      · rename_i hc
        rw [if_neg hc]
        rw [tagClose_eq_true_iff] at h ⊢
        exact List.mem_of_mem_take h

theorem hasTagB_take {l : Str} {n : Nat} (h : hasTagB (l.take n) = true) :
    hasTagB l = true := by
  induction l generalizing n with
  | nil => rw [List.take_nil] at h; exact h
  | cons c r ih =>
    cases n with
    | zero => simp [hasTagB] at h
    | succ m =>
      rw [List.take_succ_cons] at h
      rw [hasTagB] at h ⊢
      rcases Bool.or_eq_true _ _ |>.mp h with hfst | hrest
      · rcases Bool.and_eq_true _ _ |>.mp hfst with ⟨hdec, hfrom⟩
        rw [hdec, tagFrom_take hfrom]
        rfl
      · rw [ih hrest]
        simp

/-- One raw entry of a parsed feed, as `_fetch_single_rss` reads it:
every field optional; `published_parsed` / `updated_parsed` model the
already-parsed `struct_time`s as abstract minute timestamps (absent =
the feed carried no parseable timestamp of that kind). -/
structure RawEntry where
  title : Option Str
  link : Option Str
  summary : Option Str
  published_parsed : Option Nat
  updated_parsed : Option Nat
deriving DecidableEq, Repr

/-- The parsed feed object (`feed.feed.get("title", url)` and
`feed.entries`). -/
structure Feed where
  feedTitle : Option Str
  url : Str
  entries : List RawEntry
deriving DecidableEq, Repr

/-- Stand-in for `strftime("%Y-%m-%d %H:%M")` on the abstract minute
timestamp: an exact decimal rendering.  No claim inspects the text of a
dated `Published` field, only the `"Unknown"` sentinel. -/
def fmtDate (d : Nat) : Str := (toString d).data

/-- Body of the `for entry in feed.entries[:40]` loop of
`_fetch_single_rss`; `none` models `continue` (the recency cutoff,
`now - timedelta(days=days_back)`, is passed in as an abstract minute
timestamp). -/
def normEntry (src : Str) (cutoff : Nat) (e : RawEntry) : Option Article :=
  match e.published_parsed.or e.updated_parsed with
  | some d =>
    if d < cutoff then none
    else some { Title := e.title.getD "(no title)".data, Source := src,
                Link := e.link.getD [], Published := fmtDate d,
                Summary := (stripTags (e.summary.getD [])).take 500, pubDt := d }
  | none =>
    some { Title := e.title.getD "(no title)".data, Source := src,
           Link := e.link.getD [], Published := "Unknown".data,
           Summary := (stripTags (e.summary.getD [])).take 500, pubDt := 0 }

/-- fetchers.py `_fetch_single_rss`, given an already-fetched parsed
feed (the network/`feedparser` part is abstracted by `Feed`). -/
def fetchSingleRss (f : Feed) (cutoff : Nat) : List Article :=
  (f.entries.take 40).filterMap (normEntry (f.feedTitle.getD f.url) cutoff)

/-- Python `a or "default"` on an optional string (`None` and `""` are
falsy). -/
def orStr (o : Option Str) (d : Str) : Str :=
  match o with
  | none => d
  | some t => if t = [] then d else t

/-- One element of the `articles` array of the NewsAPI JSON response;
`publishedAtParsed` models the outcome of `datetime.fromisoformat` on
`publishedAt` (`none` = the parse raised, giving `datetime.min`). -/
structure NewsApiRaw where
  title : Option Str
  sourceName : Option Str
  url : Option Str
  publishedAt : Str
  publishedAtParsed : Option Nat
  description : Option Str
deriving DecidableEq, Repr

/-- fetchers.py `fetch_newsapi`, per-article normalization. -/
def normNewsApi (a : NewsApiRaw) : Article :=
  let pubDt := a.publishedAtParsed.getD 0
  { Title := orStr a.title "(no title)".data,
    Source := a.sourceName.getD "NewsAPI".data,
    Link := a.url.getD [],
    Published := if pubDt ≠ 0 then fmtDate pubDt else a.publishedAt.take 10,
    Summary := orStr a.description [],
    pubDt := pubDt }

/-- A NewsAPI article whose description is 504 characters of HTML. -/
def newsApiCexRaw : NewsApiRaw :=
  { title := none, sourceName := none, url := none, publishedAt := [],
    publishedAtParsed := none,
    description := some ("<b>".data ++ List.replicate 501 'a') }

/-- C3 counterexample: for the search-API source shape the claim fails —
`fetch_newsapi` stores the description verbatim, so a 504-character
description containing an HTML tag yields a summary longer than any
400–500 cap and still containing `'<'` (neither stripped nor
truncated). -/
theorem newsapi_summary_cex :
    (normNewsApi newsApiCexRaw).Summary = "<b>".data ++ List.replicate 501 'a' ∧
    500 < (normNewsApi newsApiCexRaw).Summary.length ∧
    '<' ∈ (normNewsApi newsApiCexRaw).Summary := by
  refine ⟨rfl, ?_, ?_⟩
  · show 500 < ("<b>".data ++ List.replicate 501 'a').length
    rw [List.length_append, List.length_replicate]
    decide
  · show '<' ∈ "<b>".data ++ List.replicate 501 'a'
    rw [List.mem_append]
    left
    decide

/-- C3 (amended): every article normalized from the feed source shape
has an HTML-stripped summary (no match of `<[^>]+>` remains) of length
at most 500; articles from the search-API shape instead carry the raw
description verbatim (empty if absent), with no stripping and no cap. -/
theorem summary_stripped_capped (f : Feed) (cutoff : Nat) :
    (∀ a ∈ fetchSingleRss f cutoff,
        a.Summary.length ≤ 500 ∧ hasTagB a.Summary = false) ∧
    (∀ raw : NewsApiRaw, (normNewsApi raw).Summary = orStr raw.description []) := by
  constructor
  · intro a ha
    obtain ⟨e, he, hne⟩ := List.mem_filterMap.mp ha
    have hsum : a.Summary = (stripTags (e.summary.getD [])).take 500 := by
      unfold normEntry at hne
      split at hne
      · split at hne
        · cases hne
        · cases hne; rfl
      · cases hne; rfl
    rw [hsum]
    constructor
    · simpa using List.length_take_le 500 _
    · rw [← Bool.not_eq_true]
      intro htag
      have := hasTagB_take htag
      rw [stripTags_no_tag] at this
      cases this
  · intro raw
    rfl

/-- A dateless raw entry used for concrete witnesses. -/
def wEntry : RawEntry :=
  { title := some "t".data, link := none, summary := some "<i>x</i>".data,
    published_parsed := none, updated_parsed := none }

/-- A one-entry feed used for concrete witnesses. -/
def wFeed : Feed := { feedTitle := some "F".data, url := "u".data, entries := [wEntry] }

/-- C3 witness: the amended statement applied to the concrete one-entry
feed `wFeed` (and its normalized article), plus the NewsAPI clause at
`newsApiCexRaw`. -/
theorem summary_stripped_capped_witness :
    ((stripTags "<i>x</i>".data).take 500).length ≤ 500 ∧
    hasTagB ((stripTags "<i>x</i>".data).take 500) = false := by
  have h := (summary_stripped_capped wFeed 5).1
    { Title := "t".data, Source := "F".data, Link := [],
      Published := "Unknown".data,
      Summary := (stripTags "<i>x</i>".data).take 500, pubDt := 0 }
    (by
      simp only [fetchSingleRss, wFeed, wEntry, List.take, List.filterMap,
        normEntry, Option.or, Option.getD]
      exact List.mem_cons_self _ _)
  exact h

theorem normEntry_eq_none_iff (src : Str) (cutoff : Nat) (e : RawEntry) :
    normEntry src cutoff e = none ↔
      ∃ d, e.published_parsed.or e.updated_parsed = some d ∧ d < cutoff := by
  unfold normEntry
  cases hor : e.published_parsed.or e.updated_parsed with
  | none => simp
  | some d =>
    by_cases hlt : d < cutoff
    · simp [hlt]
    · simp [hlt]

/-- C10: an entry among the first 40 with neither a parseable
`published` nor `updated` timestamp is kept regardless of the recency
cutoff, normalized with `Published = "Unknown"` and the
minimum-datetime sentinel as sort key; the age filter drops an entry iff
its parsed date is strictly older than the cutoff. -/
theorem unknown_date_kept (f : Feed) (cutoff : Nat) (e : RawEntry)
    (he : e ∈ f.entries.take 40)
    (hp : e.published_parsed = none) (hu : e.updated_parsed = none) :
    normEntry (f.feedTitle.getD f.url) cutoff e =
      some { Title := e.title.getD "(no title)".data,
             Source := f.feedTitle.getD f.url, Link := e.link.getD [],
             Published := "Unknown".data,
             Summary := (stripTags (e.summary.getD [])).take 500, pubDt := 0 } ∧
    (∃ a ∈ fetchSingleRss f cutoff,
        a.Published = "Unknown".data ∧ a.pubDt = 0 ∧
        a.Title = e.title.getD "(no title)".data) ∧
    (∀ e' ∈ f.entries.take 40,
        (normEntry (f.feedTitle.getD f.url) cutoff e' = none ↔
          ∃ d, e'.published_parsed.or e'.updated_parsed = some d ∧ d < cutoff)) := by
  have hnorm : normEntry (f.feedTitle.getD f.url) cutoff e =
      some { Title := e.title.getD "(no title)".data,
             Source := f.feedTitle.getD f.url, Link := e.link.getD [],
             Published := "Unknown".data,
             Summary := (stripTags (e.summary.getD [])).take 500, pubDt := 0 } := by
    unfold normEntry
    rw [hp, hu]
    rfl
  refine ⟨hnorm, ⟨_, List.mem_filterMap.mpr ⟨e, he, hnorm⟩, rfl, rfl, rfl⟩, ?_⟩
  intro e' he'
  exact normEntry_eq_none_iff _ cutoff e'

/-- C10 witness: the dateless entry of the concrete feed `wFeed` is kept
with `Published = "Unknown"` and sentinel sort key `0`. -/
theorem unknown_date_kept_witness :
    ∃ a ∈ fetchSingleRss wFeed 5,
      a.Published = "Unknown".data ∧ a.pubDt = 0 ∧ a.Title = "t".data :=
  (unknown_date_kept wFeed 5 wEntry (by decide) rfl rfl).2.1

/-- What one source's `_fetch_single_rss` call did, for a worker whose
future completed before the global `as_completed` deadline:
`ok` = HTTP + feedparser succeeded (possibly with an unparseable body —
feedparser never raises, it returns however many entries it salvaged);
`netError` = `requests.get`/`feedparser.parse` raised inside the `try`
(caught there, yielding `[]`);
`rawExn` = an exception escaped `_fetch_single_rss` itself (e.g. a bad
time tuple in `datetime(*pub_parsed[:6])`), caught by `_fetch_one`. -/
inductive SourceBehavior where
  | ok (f : Feed)
  | netError
  | rawExn (msg : Str)
deriving DecidableEq, Repr

/-- fetchers.py `_fetch_one`: returns `(name, results, error)`; it
catches every exception, tagging it with the source name. -/
def fetchOne (name : Str) (cutoff : Nat) :
    SourceBehavior → Option (List Article) × Option Str
  | SourceBehavior.ok f => (some (fetchSingleRss f cutoff), none)
  | SourceBehavior.netError => (some [], none)
  | SourceBehavior.rawExn msg => (none, some (name ++ ": ".data ++ msg))

/-- Body of the `for fut in as_completed(...)` loop of `fetch_all_rss`:
`if err: errors.append(err)` / `elif results: all_news.extend(results)`. -/
def fetchAllStep (cutoff : Nat) (acc : List Article × List Str)
    (p : Str × SourceBehavior) : List Article × List Str :=
  match fetchOne p.1 cutoff p.2 with
  | (_, some e) => (acc.1, acc.2 ++ [e])
  | (some res, none) => (if res.isEmpty then acc.1 else acc.1 ++ res, acc.2)
  | (none, none) => acc

/-- fetchers.py `fetch_all_rss`.  `responded` lists the sources whose
futures completed before the 15-second global deadline, in completion
order; `pending` the sources still outstanding when `as_completed`
raised `TimeoutError` (the outer `except` then appends the single
generic `"Some feeds timed out"` entry).  The leading guard models
`if not source_urls: return all_news, errors`. -/
def fetchAllRss (responded : List (Str × SourceBehavior)) (pending : List Str)
    (cutoff : Nat) : List Article × List Str :=
  if responded.isEmpty ∧ pending.isEmpty then ([], [])
  else
    let acc := responded.foldl (fetchAllStep cutoff) ([], [])
    (acc.1, acc.2 ++ if pending.isEmpty then [] else ["Some feeds timed out".data])

theorem foldl_fetchAllStep (cutoff : Nat) (l : List (Str × SourceBehavior))
    (a : List Article) (e : List Str) :
    l.foldl (fetchAllStep cutoff) (a, e) =
      (a ++ (l.filterMap fun p =>
          match p.2 with
          | SourceBehavior.ok f => some (fetchSingleRss f cutoff)
          | _ => none).flatten,
       e ++ l.filterMap fun p =>
          match p.2 with
          | SourceBehavior.rawExn m => some (p.1 ++ ": ".data ++ m)
          | _ => none) := by
  induction l generalizing a e with
  | nil => simp
  | cons p l ih =>
    obtain ⟨name, beh⟩ := p
    rw [List.foldl_cons]
    cases beh with
    | ok f =>
      have hstep : fetchAllStep cutoff (a, e) (name, SourceBehavior.ok f) =
          (if (fetchSingleRss f cutoff).isEmpty then a
           else a ++ fetchSingleRss f cutoff, e) := rfl
      rw [hstep]
      by_cases hres : (fetchSingleRss f cutoff).isEmpty
      · rw [if_pos hres, ih]
        have hnil : fetchSingleRss f cutoff = [] := List.isEmpty_iff.mp hres
        simp [List.filterMap_cons, hnil]
      · rw [if_neg hres, ih]
        simp [List.filterMap_cons, List.append_assoc]
    | netError =>
      have hstep : fetchAllStep cutoff (a, e) (name, SourceBehavior.netError) =
          (a, e) := rfl
      rw [hstep, ih]
      simp [List.filterMap_cons]
    | rawExn msg =>
      have hstep : fetchAllStep cutoff (a, e) (name, SourceBehavior.rawExn msg) =
          (a, e ++ [name ++ ": ".data ++ msg]) := rfl
      rw [hstep, ih]
      simp [List.filterMap_cons, List.append_assoc]

/-- C1 (amended): for every run of the orchestrator, the returned
articles are exactly the concatenation, in completion order, of the
normalized articles of the sources whose fetch succeeded; the errors
list contains one source-name-tagged entry for each exception that
escaped `_fetch_single_rss`, and — when at least one source was still
pending at the global deadline — exactly one final generic
`"Some feeds timed out"` entry (not tagged with any source name);
network / malformed-response / parse failures caught inside
`_fetch_single_rss` contribute neither articles nor an error entry. -/
theorem fetchAllRss_spec (responded : List (Str × SourceBehavior))
    (pending : List Str) (cutoff : Nat) :
    fetchAllRss responded pending cutoff =
      ((responded.filterMap fun p =>
          match p.2 with
          | SourceBehavior.ok f => some (fetchSingleRss f cutoff)
          | _ => none).flatten,
       (responded.filterMap fun p =>
          match p.2 with
          | SourceBehavior.rawExn m => some (p.1 ++ ": ".data ++ m)
          | _ => none) ++
         if pending.isEmpty then [] else ["Some feeds timed out".data]) := by
  unfold fetchAllRss
  split
  · rename_i hguard
    obtain ⟨hr, hp⟩ := hguard
    rw [List.isEmpty_iff.mp hr, List.isEmpty_iff.mp hp]
    rfl
  · rw [foldl_fetchAllStep]
    rfl

/-- C1 counterexample: the claim fails on both halves.  A source whose
HTTP fetch raises (`netError`) produces no error entry at all — the
exception is swallowed inside `_fetch_single_rss`, which returns `[]` —
so no "source-name-tagged error string" appears in the errors list; and
when one of two sources never responds before the global deadline, the
single timeout entry is the generic `"Some feeds timed out"`, not an
entry tagged with the unresponsive source's name. -/
theorem fetchAllRss_cex :
    fetchAllRss [("El Universo".data, SourceBehavior.netError)] [] 0 = ([], []) ∧
    (fetchAllRss [("A".data, SourceBehavior.ok wFeed)] ["B".data] 0).2 =
      ["Some feeds timed out".data] ∧
    ∀ s ∈ (fetchAllRss [("A".data, SourceBehavior.ok wFeed)] ["B".data] 0).2,
      ¬ "B".data <:+: s := by
  refine ⟨rfl, rfl, ?_⟩
  intro s hs
  have hs' : s = "Some feeds timed out".data := by
    have : (fetchAllRss [("A".data, SourceBehavior.ok wFeed)] ["B".data] 0).2 =
        ["Some feeds timed out".data] := rfl
    rw [this] at hs
    simpa using hs
  subst hs'
  rw [← containsSub_iff]
  decide

/-- Outcome of `TextBlob(text).sentiment.polarity`: the analyzer is an
external library, so it is abstracted as a function into either a
polarity (an exact rational, idealizing the float) or a raised
exception. -/
inductive AnalyzerOutcome where
  | ok (polarity : ℚ)
  | exn
deriving DecidableEq, Repr

/-- Round to the nearest integer, ties to even — the rounding used by
Python's built-in `round`. -/
def rne (q : ℚ) : ℤ :=
  if q - ⌊q⌋ < 1/2 then ⌊q⌋
  else if (1 : ℚ)/2 < q - ⌊q⌋ then ⌊q⌋ + 1
  else if ⌊q⌋ % 2 = 0 then ⌊q⌋ else ⌊q⌋ + 1

/-- Python `round(x, 3)` on the exact rational value. -/
def roundTo3 (q : ℚ) : ℚ := (rne (q * 1000) : ℚ) / 1000

theorem rne_bound {x : ℚ} (hl : -1000 ≤ x) (hu : x ≤ 1000) :
    -1000 ≤ rne x ∧ rne x ≤ 1000 := by
  have hfl : (-1000 : ℤ) ≤ ⌊x⌋ := by
    have h := Int.floor_le_floor hl
    simpa using h
  have hfu : ⌊x⌋ ≤ (1000 : ℤ) := by
    have h := Int.floor_le_floor hu
    simpa using h
  have hf999 : ¬ (x - ⌊x⌋ < 1/2) → ⌊x⌋ ≤ 999 := by
    intro hhalf
    push_neg at hhalf
    by_contra hgt
    push_neg at hgt
    have hcast : (1000 : ℚ) ≤ (⌊x⌋ : ℚ) := by exact_mod_cast hgt
    have hfx : (⌊x⌋ : ℚ) ≤ x - 1/2 := by linarith
    linarith
  unfold rne
  constructor
  · split
    · exact hfl
    · split
      · omega
      · split <;> omega
  · split
    · exact hfu
    · rename_i h1
      have := hf999 h1
      split
      · omega
      · split <;> omega

theorem roundTo3_bound {q : ℚ} (h : |q| ≤ 1) : |roundTo3 q| ≤ 1 := by
  rw [abs_le] at h ⊢
  obtain ⟨hl, hu⟩ := h
  have hb := rne_bound (x := q * 1000) (by linarith) (by linarith)
  have hbl : (-1000 : ℚ) ≤ (rne (q * 1000) : ℚ) := by exact_mod_cast hb.1
  have hbu : ((rne (q * 1000) : ℚ)) ≤ 1000 := by exact_mod_cast hb.2
  unfold roundTo3
  constructor
  · rw [le_div_iff₀ (by norm_num : (0:ℚ) < 1000)]
    linarith
  · rw [div_le_iff₀ (by norm_num : (0:ℚ) < 1000)]
    linarith

/-- analysis.py `compute_sentiment`, parameterized by the external
TextBlob analyzer: label from the un-rounded score against the ±0.15
deadband, score rounded to 3 decimals; any analyzer exception yields
`("Neutral", 0.0)`. -/
def computeSentiment (polarity : Str → AnalyzerOutcome) (text : Str) : Str × ℚ :=
  match polarity text with
  | AnalyzerOutcome.exn => ("Neutral".data, 0)
  | AnalyzerOutcome.ok score =>
    (if score < -(3/20 : ℚ) then "Negative".data
     else if (3/20 : ℚ) < score then "Positive".data
     else "Neutral".data,
     roundTo3 score)

/-- C6: `compute_sentiment` labels Negative exactly when the analyzer's
polarity is below −0.15, Positive exactly when above 0.15, Neutral
otherwise; the returned score is the polarity rounded to 3 decimals and
lies in [−1, 1] whenever the analyzer's polarity does; an analyzer
exception yields exactly `("Neutral", 0.0)`; and on empty text — where
the lexicon analyzer reports polarity 0 — the result is exactly
`("Neutral", 0.0)`. -/
theorem computeSentiment_spec (polarity : Str → AnalyzerOutcome) (text : Str) :
    (∀ p, polarity text = AnalyzerOutcome.ok p →
      ((computeSentiment polarity text).1 = "Negative".data ↔ p < -(3/20 : ℚ)) ∧
      ((computeSentiment polarity text).1 = "Positive".data ↔ (3/20 : ℚ) < p) ∧
      ((computeSentiment polarity text).1 = "Neutral".data ↔
        (-(3/20 : ℚ) ≤ p ∧ p ≤ (3/20 : ℚ))) ∧
      (computeSentiment polarity text).2 = roundTo3 p ∧
      (|p| ≤ 1 → |(computeSentiment polarity text).2| ≤ 1)) ∧
    (polarity text = AnalyzerOutcome.exn →
      computeSentiment polarity text = ("Neutral".data, 0)) ∧
    (polarity [] = AnalyzerOutcome.ok 0 →
      computeSentiment polarity [] = ("Neutral".data, 0)) := by
  refine ⟨?_, ?_, ?_⟩
  · intro p hp
    by_cases h1 : p < -(3/20 : ℚ)
    · have hcs : computeSentiment polarity text = ("Negative".data, roundTo3 p) := by
        unfold computeSentiment
        rw [hp]
        dsimp only
        rw [if_pos h1]
      rw [hcs]
      dsimp only
      refine ⟨iff_of_true rfl h1, ?_, ?_, rfl, fun hb => roundTo3_bound hb⟩
      · exact iff_of_false (by decide) (by intro hc; linarith)
      · exact iff_of_false (by decide) (by rintro ⟨hc, -⟩; linarith)
    · by_cases h2 : (3/20 : ℚ) < p
      · have hcs : computeSentiment polarity text = ("Positive".data, roundTo3 p) := by
          unfold computeSentiment
          rw [hp]
          dsimp only
          rw [if_neg h1, if_pos h2]
        rw [hcs]
        dsimp only
        refine ⟨?_, iff_of_true rfl h2, ?_, rfl, fun hb => roundTo3_bound hb⟩
        · exact iff_of_false (by decide) h1
        · exact iff_of_false (by decide) (by rintro ⟨-, hc⟩; linarith)
      · have hcs : computeSentiment polarity text = ("Neutral".data, roundTo3 p) := by
          unfold computeSentiment
          rw [hp]
          dsimp only
          rw [if_neg h1, if_neg h2]
        rw [hcs]
        dsimp only
        refine ⟨?_, ?_, iff_of_true rfl ⟨by linarith, by linarith⟩, rfl,
          fun hb => roundTo3_bound hb⟩
        · exact iff_of_false (by decide) h1
        · exact iff_of_false (by decide) h2
  · intro hexn
    unfold computeSentiment
    rw [hexn]
  · intro h0
    have hz : roundTo3 0 = 0 := by norm_num [roundTo3, rne]
    unfold computeSentiment
    rw [h0]
    dsimp only
    rw [if_neg (by norm_num), if_neg (by norm_num), hz]

/-- The degenerate analyzer reporting polarity 0 everywhere, used to
instantiate the abstract TextBlob parameter in the witness. -/
def tbZero : Str → AnalyzerOutcome := fun _ => AnalyzerOutcome.ok 0

/-- C6 witness: `compute_sentiment("")` equals `(Neutral, 0.0)` under an
analyzer that reports polarity 0 on the empty text. -/
theorem computeSentiment_spec_witness :
    computeSentiment tbZero [] = ("Neutral".data, 0) :=
  (computeSentiment_spec tbZero []).2.2 rfl

/-- One row of the final enriched table: the normalized article plus the
four derived columns added in the BUILD DATAFRAME block. -/
structure Row where
  art : Article
  Severity : Str
  Sentiment : Str
  SentimentScore : ℚ
  Themes : List Str
  Locations : List (Str × ℚ × ℚ)

/-- The enrichment step of the BUILD DATAFRAME block, applied to one
remaining article (severity, sentiment, themes, locations columns). -/
def enrich (polarity : Str → AnalyzerOutcome) (a : Article) : Row :=
  { art := a,
    Severity := computeSeverity a.Title a.Summary,
    Sentiment := (computeSentiment polarity (a.Title ++ " ".data ++ a.Summary)).1,
    SentimentScore := (computeSentiment polarity (a.Title ++ " ".data ++ a.Summary)).2,
    Themes := tagThemes a.Title a.Summary,
    Locations := detectLocations (a.Title ++ " ".data ++ a.Summary) }

/-- `df.drop_duplicates(subset=["Title"])` scan, carrying the titles
already seen (keep='first', exact case-sensitive comparison). -/
def dedupGo (seen : List Str) : List Article → List Article
  | [] => []
  | a :: rest =>
    if a.Title ∈ seen then dedupGo seen rest
    else a :: dedupGo (a.Title :: seen) rest

/-- `df.drop_duplicates(subset=["Title"])` (keep first occurrence). -/
def dedupByTitle (l : List Article) : List Article := dedupGo [] l

/-- Insert into a list sorted by `_pub_dt` descending. -/
def insertDesc (x : Row) : List Row → List Row
  | [] => [x]
  | y :: rest =>
    if y.art.pubDt ≤ x.art.pubDt then x :: y :: rest else y :: insertDesc x rest

/-- `df.sort_values("_pub_dt", ascending=False)`, modelled as an
insertion sort.  pandas' default quicksort specifies no tie order, and
no property proved below depends on the order of equal keys. -/
def sortByDateDesc : List Row → List Row
  | [] => []
  | x :: rest => insertDesc x (sortByDateDesc rest)

/-- app.py / ecuador_osint_v2.py BUILD DATAFRAME block: (1) keyword
filter only when active keywords exist, (2) de-duplication by exact
title keeping the first occurrence, (3) enrichment, (4) severity filter,
(5) sort by `_pub_dt` descending. -/
def assemble (polarity : Str → AnalyzerOutcome) (kws sevSel : List Str)
    (arts : List Article) : List Row :=
  sortByDateDesc
    (((dedupByTitle
          (if kws.isEmpty then arts
           else arts.filter (fun a => keywordMatch a kws))).map
        (enrich polarity)).filter
      (fun r => decide (r.Severity ∈ sevSel)))

theorem dedupGo_mem {x : Article} {seen : List Str} {l : List Article}
    (hx : x ∈ dedupGo seen l) : x ∈ l := by
  induction l generalizing seen with
  | nil => simpa [dedupGo] using hx
  | cons a rest ih =>
    rw [dedupGo] at hx
    split at hx
    · exact List.mem_cons_of_mem a (ih hx)
    · rcases List.mem_cons.mp hx with rfl | h
      · exact List.mem_cons_self _ _
      · exact List.mem_cons_of_mem a (ih h)

theorem dedupGo_spec (seen : List Str) (l : List Article) :
    (∀ x ∈ dedupGo seen l, x.Title ∉ seen) ∧
    (dedupGo seen l).Pairwise (fun a b => a.Title ≠ b.Title) := by
  induction l generalizing seen with
  | nil => simp [dedupGo]
  | cons a rest ih =>
    rw [dedupGo]
    split
    · exact ih seen
    · rename_i hnew
      obtain ⟨ihmem, ihpw⟩ := ih (a.Title :: seen)
      constructor
      · intro x hx
        rcases List.mem_cons.mp hx with rfl | h
        · exact hnew
        · intro hmem
          exact ihmem x h (List.mem_cons_of_mem _ hmem)
      · rw [List.pairwise_cons]
        refine ⟨?_, ihpw⟩
        intro b hb heq
        exact ihmem b hb (by rw [← heq]; exact List.mem_cons_self _ _)

theorem insertDesc_perm (x : Row) (l : List Row) : List.Perm (insertDesc x l) (x :: l) := by
  induction l with
  | nil => exact List.Perm.refl _
  | cons y rest ih =>
    rw [insertDesc]
    split
    · exact List.Perm.refl _
    · exact (List.Perm.cons y ih).trans (List.Perm.swap x y rest)

theorem sortByDateDesc_perm (l : List Row) : List.Perm (sortByDateDesc l) l := by
  induction l with
  | nil => exact List.Perm.refl _
  | cons x rest ih =>
    exact (insertDesc_perm x _).trans (List.Perm.cons x ih)

theorem insertDesc_sorted {x : Row} {l : List Row}
    (h : l.Pairwise (fun r s => s.art.pubDt ≤ r.art.pubDt)) :
    (insertDesc x l).Pairwise (fun r s => s.art.pubDt ≤ r.art.pubDt) := by
  induction l with
  | nil => simp [insertDesc]
  | cons y rest ih =>
    rw [List.pairwise_cons] at h
    obtain ⟨hy, hrest⟩ := h
    rw [insertDesc]
    split
    · rename_i hle
      rw [List.pairwise_cons]
      constructor
      · intro z hz
        rcases List.mem_cons.mp hz with rfl | hz'
        · exact hle
        · exact (hy z hz').trans hle
      · rw [List.pairwise_cons]
        exact ⟨hy, hrest⟩
    · rename_i hgt
      push_neg at hgt
      rw [List.pairwise_cons]
      constructor
      · intro z hz
        rcases List.mem_cons.mp ((insertDesc_perm x rest).mem_iff.mp hz) with rfl | hz'
        · exact le_of_lt hgt
        · exact hy z hz'
      · exact ih hrest

theorem sortByDateDesc_sorted (l : List Row) :
    (sortByDateDesc l).Pairwise (fun r s => s.art.pubDt ≤ r.art.pubDt) := by
  induction l with
  | nil => simp [sortByDateDesc]
  | cons x rest ih =>
    rw [sortByDateDesc]
    exact insertDesc_sorted ih

/-- C5: the assembler applies keyword filter (when keywords exist),
title de-duplication (first kept), enrichment, severity filter and
`_pub_dt`-descending sort in that order, so the final table has no two
rows with equal titles, every row's severity lies in the selected set,
every row satisfies the keyword predicate, and rows are ordered most
recent first, with sentinel-dated (unknown-date) rows at the end. -/
theorem assemble_spec (polarity : Str → AnalyzerOutcome) (kws sevSel : List Str)
    (arts : List Article) :
    (assemble polarity kws sevSel arts).Pairwise
        (fun r s => r.art.Title ≠ s.art.Title) ∧
    (∀ r ∈ assemble polarity kws sevSel arts, r.Severity ∈ sevSel) ∧
    (∀ r ∈ assemble polarity kws sevSel arts, keywordMatch r.art kws = true) ∧
    (assemble polarity kws sevSel arts).Pairwise
        (fun r s => s.art.pubDt ≤ r.art.pubDt) ∧
    (assemble polarity kws sevSel arts).Pairwise
        (fun r s => r.art.pubDt = 0 → s.art.pubDt = 0) := by
  have hsorted := sortByDateDesc_sorted
    (((dedupByTitle
          (if kws.isEmpty then arts
           else arts.filter (fun a => keywordMatch a kws))).map
        (enrich polarity)).filter
      (fun r => decide (r.Severity ∈ sevSel)))
  have hperm := sortByDateDesc_perm
    (((dedupByTitle
          (if kws.isEmpty then arts
           else arts.filter (fun a => keywordMatch a kws))).map
        (enrich polarity)).filter
      (fun r => decide (r.Severity ∈ sevSel)))
  have hmemchain : ∀ r ∈ assemble polarity kws sevSel arts,
      ∃ a, a ∈ (if kws.isEmpty then arts
          else arts.filter (fun a => keywordMatch a kws)) ∧
        r = enrich polarity a ∧ r.Severity ∈ sevSel := by
    intro r hr
    have hr4 := hperm.subset hr
    obtain ⟨hr3, hsev⟩ := List.mem_filter.mp hr4
    obtain ⟨a, ha2, rfl⟩ := List.mem_map.mp hr3
    exact ⟨a, dedupGo_mem ha2, rfl, of_decide_eq_true hsev⟩
  refine ⟨?_, ?_, ?_, hsorted, ?_⟩
  · have hpw2 := (dedupGo_spec []
      (if kws.isEmpty then arts
       else arts.filter (fun a => keywordMatch a kws))).2
    have hpw3 : (((dedupByTitle
          (if kws.isEmpty then arts
           else arts.filter (fun a => keywordMatch a kws))).map
        (enrich polarity))).Pairwise (fun r s => r.art.Title ≠ s.art.Title) :=
      hpw2.map (enrich polarity) (fun a b hab => hab)
    have hpw4 : ((((dedupByTitle
          (if kws.isEmpty then arts
           else arts.filter (fun a => keywordMatch a kws))).map
        (enrich polarity))).filter
          (fun r => decide (r.Severity ∈ sevSel))).Pairwise
        (fun r s => r.art.Title ≠ s.art.Title) :=
      hpw3.sublist (List.filter_sublist _)
    exact ((hperm.pairwise_iff (fun {r s} h => fun heq => h heq.symm)).mpr hpw4)
  · intro r hr
    obtain ⟨a, -, -, hsev⟩ := hmemchain r hr
    exact hsev
  · intro r hr
    obtain ⟨a, ha1, rfl, -⟩ := hmemchain r hr
    by_cases hkw : kws.isEmpty
    · rw [List.isEmpty_iff.mp hkw]
      rfl
    · rw [if_neg hkw] at ha1
      have := (List.mem_filter.mp ha1).2
      simpa [enrich] using this
  · exact hsorted.imp (fun hle h0 => Nat.le_zero.mp (h0 ▸ hle))

/-- One ACLED event row as `generate_briefing` touches it: only the row
count and the `to_numeric`-coerced `fatalities` column are read
(`none` models a value `pd.to_numeric(..., errors="coerce")` turned into
NaN, which the sum skips). -/
structure AcledEvent where
  fatalities : Option ℤ
deriving DecidableEq, Repr

/-- `int(pd.to_numeric(acled_df["fatalities"], errors="coerce").sum())`. -/
def sumFatalities (acled : List AcledEvent) : ℤ :=
  (acled.map (fun ev => ev.fatalities.getD 0)).sum

def natStr (n : Nat) : Str := (toString n).data

def intStr (z : ℤ) : Str := (toString z).data

/-- First-occurrence de-duplication of a string column (the distinct
values underlying `nunique` / `value_counts`). -/
def firstUniqGo (seen : List Str) : List Str → List Str
  | [] => []
  | s :: rest =>
    if s ∈ seen then firstUniqGo seen rest
    else s :: firstUniqGo (s :: seen) rest

def firstUniq (l : List Str) : List Str := firstUniqGo [] l

/-- Insertion step for sorting distinct values by `value_counts`
frequency, descending. -/
def insertByCountDesc (vals : List Str) (x : Str) : List Str → List Str
  | [] => [x]
  | y :: rest =>
    if vals.count y ≤ vals.count x then x :: y :: rest
    else y :: insertByCountDesc vals x rest

def sortByCountDesc (vals : List Str) : List Str → List Str
  | [] => []
  | x :: rest => insertByCountDesc vals x (sortByCountDesc vals rest)

/-- `value_counts().head(k).index.tolist()`: the k most frequent values
(pandas specifies no tie order; only the empty case is used in proofs). -/
def topFreq (k : Nat) (vals : List Str) : List Str :=
  (sortByCountDesc vals (firstUniq vals)).take k

/-- The `acled_summary` block of analysis.py `generate_briefing`. -/
def acledSummary (acled : List AcledEvent) : Str :=
  if acled.isEmpty then []
  else
    "\n**ACLED Conflict Data (".data ++ natStr acled.length ++
    " events):** ".data ++ natStr acled.length ++
    " documented incidents, ".data ++ intStr (sumFatalities acled) ++
    " reported fatalities in the period.\n".data

/-- The `for _, row in high.head(8).iterrows()` accumulation of
analysis.py `generate_briefing`. -/
def highLines (high : List Row) : Str :=
  (high.take 8).foldl
    (fun acc r =>
      acc ++ "- **".data ++ r.art.Published.take 10 ++ "** | ".data ++
        r.art.Source ++ "\n  ".data ++ r.art.Title ++ "\n  ".data ++
        r.art.Link ++ "\n\n".data)
    []

/-- analysis.py `generate_briefing` (the `now` timestamp string is
passed in: wall-clock time is environmental). -/
def generateBriefing (rows : List Row) (acled : List AcledEvent)
    (days_back : Nat) (now : Str) : Str :=
  "# ECUADOR SITUATION REPORT\n**Generated:** ".data ++ now ++
  "\n**Period covered:** Last ".data ++ natStr days_back ++
  " days\n**Classification:** UNCLASSIFIED — PUBLIC SOURCES ONLY\n\n---\n\n## EXECUTIVE SUMMARY\n\nThis report covers open-source monitoring of Ecuador over the past ".data ++
  natStr days_back ++
  " days.\nA total of **".data ++ natStr rows.length ++
  " articles** were identified across ".data ++
  natStr (firstUniq (rows.map (fun r => r.art.Source))).length ++
  " sources.\nOf these, **".data ++
  natStr (rows.filter (fun r => decide (r.Severity = "🔴 High".data))).length ++
  " articles** were assessed as HIGH severity.\n".data ++
  acledSummary acled ++
  "\nLeading themes identified: ".data ++
  (if (topFreq 3 (rows.flatMap (fun r => r.Themes))).isEmpty then "N/A".data
   else List.intercalate ", ".data (topFreq 3 (rows.flatMap (fun r => r.Themes)))) ++
  ".\nPrimary sources: ".data ++
  List.intercalate ", ".data (topFreq 3 (rows.map (fun r => r.art.Source))) ++
  ".\n\n---\n\n## HIGH SEVERITY INCIDENTS\n\n".data ++
  highLines (rows.filter (fun r => decide (r.Severity = "🔴 High".data))) ++
  "---\n\n## METHODOLOGY\n\nAll data sourced from publicly available RSS feeds, NewsAPI.org, and ACLED (Armed Conflict Location & Event Data Project).\nNo social media scraping. No classified or proprietary sources.\nSentiment analysis via TextBlob. Entity extraction via spaCy es_core_news_sm.\nFor NGO/research use only. Verify all incidents through primary sources before operational use.\n\n---\n*Ecuador OSINT Dashboard v3.0 — Human Rights Edition*\n".data

theorem sub_app_left {t a : Str} (h : t <:+: a) (b : Str) : t <:+: a ++ b := by
  obtain ⟨u, v, rfl⟩ := h
  exact ⟨u, v ++ b, by simp⟩

theorem sub_app_right {t b : Str} (h : t <:+: b) (a : Str) : t <:+: a ++ b := by
  obtain ⟨u, v, rfl⟩ := h
  exact ⟨a ++ u, v, by simp⟩

set_option maxRecDepth 100000

set_option maxHeartbeats 2000000

theorem pre_cong {a b : Str} (l : Str) (h : a <+: b) : l ++ a <+: l ++ b := by
  obtain ⟨r, rfl⟩ := h
  exact ⟨r, by simp⟩

theorem sub_of_pre {t l₁ l₂ : Str} (h : t <:+: l₁) (hp : l₁ <+: l₂) : t <:+: l₂ :=
  h.trans hp.isInfix

/-- C7: on an empty article collection `generate_briefing` (a total
function here) degrades gracefully: the report contains the
"ECUADOR SITUATION REPORT" header, the "METHODOLOGY" section, the
zeroed counts ("0 articles" for both the total and the High count, "0
sources"), the themes line degraded to "N/A" and the sources line
degraded to the empty join — for every day window, timestamp and ACLED
table. -/
theorem generateBriefing_empty_spec (acled : List AcledEvent) (d : Nat) (now : Str) :
    ("ECUADOR SITUATION REPORT".data <:+: generateBriefing [] acled d now) ∧
    ("METHODOLOGY".data <:+: generateBriefing [] acled d now) ∧
    ("A total of **0 articles** were identified across 0 sources".data <:+:
      generateBriefing [] acled d now) ∧
    ("**0 articles** were assessed as HIGH severity".data <:+:
      generateBriefing [] acled d now) ∧
    ("Leading themes identified: N/A.".data <:+: generateBriefing [] acled d now) ∧
    ("Primary sources: .".data <:+: generateBriefing [] acled d now) := by
  unfold generateBriefing
  simp only [List.append_assoc]
  refine ⟨?_, ?_, ?_, ?_, ?_, ?_⟩
  · exact sub_app_left (by decide) _
  · exact sub_app_right (sub_app_right (sub_app_right (sub_app_right (sub_app_right
      (sub_app_right (sub_app_right (sub_app_right (sub_app_right (sub_app_right
      (sub_app_right (sub_app_right (sub_app_right (sub_app_right (by decide)
        _) _) _) _) _) _) _) _) _) _) _) _) _) _
  · exact sub_app_right (sub_app_right (sub_app_right (sub_app_right (sub_app_right
      (sub_app_right (sub_of_pre (by decide)
        (pre_cong _ (pre_cong _ (pre_cong _ (pre_cong _ (List.prefix_append _ _))))))
        _) _) _) _) _) _
  · exact sub_app_right (sub_app_right (sub_app_right (sub_app_right (sub_app_right
      (sub_app_right (sub_app_right (sub_app_right (sub_app_right (sub_app_right
      (sub_of_pre (by decide)
        (pre_cong _ (pre_cong _ (List.prefix_append _ _))))
        _) _) _) _) _) _) _) _) _) _
  · exact sub_app_right (sub_app_right (sub_app_right (sub_app_right (sub_app_right
      (sub_app_right (sub_app_right (sub_app_right (sub_app_right (sub_app_right
      (sub_app_right (sub_app_right (sub_app_right (sub_app_right (by decide)
        _) _) _) _) _) _) _) _) _) _) _) _) _) _
  · exact sub_app_right (sub_app_right (sub_app_right (sub_app_right (sub_app_right
      (sub_app_right (sub_app_right (sub_app_right (sub_app_right (sub_app_right
      (sub_app_right (sub_app_right (sub_app_right (sub_app_right (by decide)
        _) _) _) _) _) _) _) _) _) _) _) _) _) _
